import Mathlib

/-!
# ADC character-device driver (`noblock/adc.c`): embedding and verified properties

The driver is embedded as state-passing functions over a `State` that holds

* the memory-mapped register window (`regs`, offset ↦ 32-bit value),
* the caller's address space (`umem`, byte-addressed, and `writable`, the
  set of addresses a copy to user space may store to),
* a `trace` of every externally visible action the driver performs, in
  program order (register reads/writes, wait-queue operations, log lines,
  copies to user space).

Kernel services the driver calls (`readl`, `writel`, `copy_to_user`,
`wait_event_interruptible`, `wake_up_interruptible`, `poll_wait`, `printk`)
are modelled at their documented interface.  The build target named in the
source header is 32-bit little-endian ARM (Linux 2.6.35), so `unsigned long`,
`ssize_t` and `int` are 32 bits wide.
-/

namespace Adc

/-! ## Constants -/

/-- Register offset `#define ADCCON 0x0`. -/
def ADCCON : Nat := 0x0
/-- Register offset `#define ADCDAT 0xC`. -/
def ADCDAT : Nat := 0xC
/-- Register offset `#define ADCCLRINT 0x18`. -/
def ADCCLRINT : Nat := 0x18
/-- Register offset `#define ADCMUX 0x1C`. -/
def ADCMUX : Nat := 0x1C

/-- Linux open flag `O_NONBLOCK` (octal 04000 on ARM). -/
def O_NONBLOCK : Nat := 0o4000
/-- Linux errno `EAGAIN`. -/
def EAGAIN : Int := 11
/-- Linux errno `EFAULT`. -/
def EFAULT : Int := 14
/-- Linux errno `EINVAL`. -/
def EINVAL : Int := 22
/-- Linux kernel-internal errno `ERESTARTSYS`. -/
def ERESTARTSYS : Int := 512
/-- Linux poll bit `POLLIN`. -/
def POLLIN : Nat := 0x0001
/-- Linux poll bit `POLLRDNORM`. -/
def POLLRDNORM : Nat := 0x0040
/-- Linux `irqreturn_t` value `IRQ_HANDLED`. -/
def IRQ_HANDLED : Nat := 1

/-- Size in bytes of `ssize_t` on the 32-bit ARM target. -/
def sizeof_ssize_t : Nat := 4

/-- Bitwise complement `~x` at the 32-bit width of `unsigned long`. -/
def not32 (x : Nat) : Nat := 0xFFFFFFFF - x % 2 ^ 32

/-- Conversion `(int)arg` of an `unsigned long` to a 32-bit signed integer. -/
def toInt32 (x : Nat) : Int :=
  if x % 2 ^ 32 < 2 ^ 31 then (x % 2 ^ 32 : Nat) else (x % 2 ^ 32 : Nat) - 2 ^ 32

/-! ## State and trace -/

/-- The driver functions that log their own name (`__func__`). -/
inductive Func
  | adc_isr
  | adc_read
  | adc_unlocked_ioctl
  | adc_poll
  deriving DecidableEq, Repr

/-- Externally visible actions of the driver, recorded in program order. -/
inductive Event
  /-- The line `printk("%s\n", __func__)`. -/
  | printk (fn : Func)
  /-- The line `printk("%s: IOCTL_SET_RESOLUTION(arg = %d)\n", __func__, (int)arg)`. -/
  | printk_resolution (arg : Int)
  /-- A 32-bit read of the register at offset `off`. -/
  | readl (off : Nat)
  /-- A 32-bit write of `val` to the register at offset `off`. -/
  | writel (val : Nat) (off : Nat)
  /-- The call `wake_up_interruptible(&adc->readq)`. -/
  | wake_up_interruptible
  /-- The call `poll_wait(filp, &adc->readq, wait)` with poll table `wait`. -/
  | poll_wait (wait : Nat)
  /-- The waiter enqueues itself on `adc->readq` (inside the wait loop). -/
  | prepare_to_wait
  /-- The waiter gives up the processor and sleeps (inside the wait loop). -/
  | schedule
  /-- The waiter leaves `adc->readq` (end of the wait loop). -/
  | finish_wait
  /-- The call `copy_to_user(dst, src, n)`, `src` given as its bytes, with the
  number of bytes it reported as not copied. -/
  | copy_to_user (dst : Nat) (src : List Nat) (n : Nat) (uncopied : Nat)
  deriving DecidableEq, Repr

/-- Device window, caller memory and the trace of actions so far. -/
structure State where
  /-- Register window: offset ↦ 32-bit value. -/
  regs : Nat → Nat
  /-- Caller memory: address ↦ byte. -/
  umem : Nat → Nat
  /-- Addresses of caller memory a copy to user space can store to. -/
  writable : Nat → Bool
  /-- Actions performed so far, oldest first. -/
  trace : List Event

/-- Append one action to the trace. -/
def State.log (s : State) (e : Event) : State :=
  { s with trace := s.trace ++ [e] }

/-- Pointwise update of a map on naturals. -/
def setAt (f : Nat → Nat) (a v : Nat) : Nat → Nat :=
  fun x => if x = a then v else f x

/-! ## Kernel services -/

/-- Kernel service `readl`: a 32-bit read from the window; the window is not changed. -/
def readl (off : Nat) (s : State) : Nat × State :=
  (s.regs off % 2 ^ 32, s.log (.readl off))

/-- Kernel service `writel`: a 32-bit write to the window. -/
def writel (val : Nat) (off : Nat) (s : State) : State :=
  { s with regs := setAt s.regs off (val % 2 ^ 32) }.log (.writel (val % 2 ^ 32) off)

/-- Byte-wise store into caller memory: stops at the first address that is
not writable and returns the number of bytes not stored. -/
def store_user (dst : Nat) : List Nat → State → Nat × State
  | [], s => (0, s)
  | b :: bs, s =>
    if s.writable dst then
      store_user (dst + 1) bs { s with umem := setAt s.umem dst b }
    else
      ((b :: bs).length, s)

/-- Kernel service `copy_to_user(dst, src, n)` with `src` given as its `n`
bytes: returns the number of bytes that could not be copied (0 on success). -/
def copy_to_user (dst : Nat) (src : List Nat) (s : State) : Nat × State :=
  let r := store_user dst src s
  (r.1, r.2.log (.copy_to_user dst src src.length r.1))

/-- Little-endian bytes of a 32-bit object. -/
def bytes32 (v : Nat) : List Nat :=
  [v % 256, v / 256 % 256, v / 65536 % 256, v / 16777216 % 256]

/-- The 32-bit little-endian object stored at address `a` of a byte memory. -/
def load32 (m : Nat → Nat) (a : Nat) : Nat :=
  m a + 256 * m (a + 1) + 65536 * m (a + 2) + 16777216 * m (a + 3)

/-- What happens to a waiter inside the wait loop each time it does not find
the condition true. -/
inductive WaitStep
  /-- The predicate `signal_pending(current)` holds: the wait is cancelled. -/
  | signal
  /-- No signal is pending: the waiter sleeps in `schedule()` and is woken
  later, when the register window reads `regs`. -/
  | wake (regs : Nat → Nat)

/-- The loop of `__wait_event_interruptible(wq, condition, ret)`:
`for (;;) { prepare_to_wait(..); if (condition) break;
if (!signal_pending(current)) { schedule(); continue; }
ret = -ERESTARTSYS; break; } finish_wait(..);`.
The list says what happens at each iteration that finds the condition false;
when it is exhausted the waiter sleeps and is never woken (`none`). -/
def wait_loop (cond : State → Nat × State) : List WaitStep → State → Option (Int × State)
  | [], s =>
    let r := cond (s.log .prepare_to_wait)
    if r.1 ≠ 0 then some (0, r.2.log .finish_wait) else none
  | .signal :: _, s =>
    let r := cond (s.log .prepare_to_wait)
    if r.1 ≠ 0 then some (0, r.2.log .finish_wait)
    else some (-ERESTARTSYS, r.2.log .finish_wait)
  | .wake regs :: env, s =>
    let r := cond (s.log .prepare_to_wait)
    if r.1 ≠ 0 then some (0, r.2.log .finish_wait)
    else wait_loop cond env { r.2.log .schedule with regs := regs }

/-- Kernel service `wait_event_interruptible(wq, condition)`:
`int __ret = 0; if (!(condition)) __wait_event_interruptible(..); __ret`. -/
def wait_event_interruptible (cond : State → Nat × State) (env : List WaitStep)
    (s : State) : Option (Int × State) :=
  let r := cond s
  if r.1 ≠ 0 then some (0, r.2) else wait_loop cond env r.2

/-! ## The driver -/

/-- Source `adc_dev_init`. -/
def adc_dev_init (s : State) : State :=
  let r := readl ADCCON s
  let reg := r.1
  -- start by read
  let reg := reg ||| (0x1 <<< 1)
  -- not standby
  let reg := reg &&& not32 (0x1 <<< 2)
  -- prescaler (1/256)
  let reg := reg ||| (0xff <<< 6)
  -- enable prescaler
  let reg := reg ||| (0x1 <<< 14)
  -- resolution 12bit
  let reg := reg ||| (0x1 <<< 16)
  let s := writel reg ADCCON r.2
  -- aux select (AIN0)
  let r := readl ADCMUX s
  let reg := r.1 &&& not32 0xf
  let s := writel reg ADCMUX r.2
  -- enable
  (readl ADCDAT s).2

/-- Source `adc_dev_read`. -/
def adc_dev_read (s : State) : Nat × State :=
  let r := readl ADCDAT s
  (r.1 &&& 0xfff, r.2)

/-- Source `adc_dev_set_resolution`. -/
def adc_dev_set_resolution (resolution : Int) (s : State) : State :=
  let r := readl ADCCON s
  let reg := if 12 = resolution then r.1 ||| (0x1 <<< 16) else r.1 &&& not32 (0x1 <<< 16)
  writel reg ADCCON r.2

/-- Source `adc_dev_is_finished`. -/
def adc_dev_is_finished (s : State) : Nat × State :=
  let r := readl ADCCON s
  (r.1 &&& (0x1 <<< 15), r.2)

/-- Source `adc_isr`. -/
def adc_isr (s : State) : Nat × State :=
  let s := s.log (.printk .adc_isr)
  let s := s.log .wake_up_interruptible
  let s := writel 0 ADCCLRINT s
  (IRQ_HANDLED, s)

/-- Result of `adc_read`: the returned `ssize_t`, the file offset `*loff`
after the call, and the state after the call. -/
structure ReadResult where
  ret : Int
  loff : Int
  st : State

/-- Source `adc_read`, lines from `vol = adc_dev_read(adc)` to the label
`exit`: the part both modes run once the conversion is found finished. -/
def adc_read_deliver (buf : Nat) (loff : Int) (s : State) : ReadResult :=
  let r := adc_dev_read s
  let vol := r.1
  let c := copy_to_user buf (bytes32 vol) r.2
  if (c.1 : Int) ≠ 0 then
    ⟨-EFAULT, loff, c.2⟩
  else
    ⟨vol, loff, c.2⟩

/-- Source `adc_read`; `loff` is the value of `*loff` at entry. -/
def adc_read (f_flags : Nat) (buf : Nat) (len : Nat) (loff : Int)
    (env : List WaitStep) (s : State) : Option ReadResult :=
  let _ := len
  let s := s.log (.printk .adc_read)
  if f_flags &&& O_NONBLOCK = 0 then
    -- blocking mode
    match wait_event_interruptible adc_dev_is_finished env s with
    | none => none
    | some (ret, s) =>
      if ret < 0 then some ⟨ret, loff, s⟩ else some (adc_read_deliver buf loff s)
  else
    -- non-blocking mode
    let r := adc_dev_is_finished s
    if r.1 = 0 then some ⟨-EAGAIN, loff, r.2⟩ else some (adc_read_deliver buf loff r.2)

/-- Source `adc_unlocked_ioctl`; the request code `IOCTL_SET_RESOLUTION`
comes from the header `adc.h` and is a parameter. -/
def adc_unlocked_ioctl (IOCTL_SET_RESOLUTION : Nat) (requests : Nat) (arg : Nat)
    (s : State) : Int × State :=
  let s := s.log (.printk .adc_unlocked_ioctl)
  if requests = IOCTL_SET_RESOLUTION then
    (0, s.log (.printk_resolution (toInt32 arg)))
  else
    (-EINVAL, s)

/-- Source `adc_poll`; `wait` is the poll table handed in by the caller. -/
def adc_poll (wait : Nat) (s : State) : Nat × State :=
  let mask := 0
  let s := s.log (.printk .adc_poll)
  let s := s.log (.poll_wait wait)
  let r := adc_dev_is_finished s
  if r.1 ≠ 0 then (mask ||| (POLLIN ||| POLLRDNORM), r.2) else (mask, r.2)

/-! ## Vocabulary of the statements -/

/-- A list of actions made only of status reads (reads of ADCCON) and
wait-queue operations: no register write, no read of another register, no
copy to the caller. -/
def WaitOnly (t : List Event) : Prop :=
  ∀ e ∈ t, e = .readl ADCCON ∨ e = .prepare_to_wait ∨ e = .schedule ∨ e = .finish_wait

instance (t : List Event) : Decidable (WaitOnly t) := by
  unfold WaitOnly
  infer_instance

/-! ## Sample states used to evaluate the driver -/

/-- A device whose registers all read 0 (conversion not finished), with a
fully writable caller memory of zero bytes and an empty trace. -/
def st_busy : State :=
  { regs := fun _ => 0, umem := fun _ => 0, writable := fun _ => true, trace := [] }

/-- A window with the finished flag (bit 15 of ADCCON) set and the raw
sample `0xABCD` in ADCDAT. -/
def regs_ready : Nat → Nat :=
  fun off => if off = ADCCON then 0x8000 else if off = ADCDAT then 0xABCD else 0

/-- The state `st_busy` with the window `regs_ready`. -/
def st_ready : State :=
  { st_busy with regs := regs_ready }

/-- The state `st_ready` whose caller memory cannot be stored to at address 2. -/
def st_fault : State :=
  { st_ready with writable := fun a => decide (a ≠ 2) }

/-! ## Basic facts -/

theorem and_bit15 (x : Nat) :
    x % 2 ^ 32 &&& (0x1 <<< 15) = if x.testBit 15 then 32768 else 0 := by
  apply Nat.eq_of_testBit_eq
  intro i
  rw [Nat.one_shiftLeft, Nat.testBit_and, Nat.testBit_two_pow, Nat.testBit_mod_two_pow]
  by_cases hi : 15 = i
  · subst hi
    cases h : x.testBit 15
    · simp
    · simp; decide
  · have h32768 : Nat.testBit 32768 i = false := by
      have : (32768 : Nat) = 2 ^ 15 := by norm_num
      rw [this, Nat.testBit_two_pow]; simp [hi]
    cases h : x.testBit 15 <;> simp [hi, h32768]

theorem adc_dev_is_finished_eq (s : State) :
    adc_dev_is_finished s =
      (if (s.regs ADCCON).testBit 15 then 32768 else 0, s.log (.readl ADCCON)) := by
  simp only [adc_dev_is_finished, readl, and_bit15]

theorem adc_dev_is_finished_busy (s : State) (h : (s.regs ADCCON).testBit 15 = false) :
    adc_dev_is_finished s = (0, s.log (.readl ADCCON)) := by
  simp [adc_dev_is_finished_eq, h]

theorem adc_dev_is_finished_ready (s : State) (h : (s.regs ADCCON).testBit 15 = true) :
    adc_dev_is_finished s = (32768, s.log (.readl ADCCON)) := by
  simp [adc_dev_is_finished_eq, h]

/-! ## Non-blocking read on a busy device -/

/-- C1: on a session opened with `O_NONBLOCK`, when bit 15 of ADCCON is clear,
`adc_read` returns `-EAGAIN` (= -11) after exactly one read of ADCCON: the
trace grows by the log line and that single read only (no wait-queue
operation, no read of ADCDAT, no register write, no copy to the caller), and
the register window, the caller's memory and `*loff` are as before. -/
theorem adc_read_nonblock_busy (f_flags buf len : Nat) (loff : Int)
    (env : List WaitStep) (s : State)
    (hnb : f_flags &&& O_NONBLOCK ≠ 0)
    (hbusy : (s.regs ADCCON).testBit 15 = false) :
    adc_read f_flags buf len loff env s =
      some ⟨-11, loff,
        { s with trace := s.trace ++ [.printk .adc_read, .readl ADCCON] }⟩ ∧
    -EAGAIN = -11 := by
  have h := adc_dev_is_finished_busy (s.log (.printk .adc_read)) hbusy
  refine ⟨?_, rfl⟩
  unfold adc_read
  simp only [hnb, if_false, h, if_true]
  simp [State.log, EAGAIN]

theorem adc_read_nonblock_busy_witness :
    adc_read O_NONBLOCK 0 4 0 [] st_busy =
      some ⟨-11, 0,
        { st_busy with trace := st_busy.trace ++ [.printk .adc_read, .readl ADCCON] }⟩ ∧
    -EAGAIN = -11 :=
  adc_read_nonblock_busy O_NONBLOCK 0 4 0 [] st_busy (by decide) (by decide)

/-! ## Readiness query -/

/-- C4: for every state and poll table, `adc_poll` logs its name, calls
`poll_wait` on the device's wait queue with the given poll table, then reads
ADCCON once and nothing else; it returns `POLLIN | POLLRDNORM` (= 0x41) when
bit 15 of ADCCON is set and 0 when it is clear.  The register window and the
caller's memory are unchanged, so a second call returns the same mask. -/
theorem adc_poll_mask (wait : Nat) (s : State) :
    adc_poll wait s =
      (if (s.regs ADCCON).testBit 15 then POLLIN ||| POLLRDNORM else 0,
        { s with trace :=
            s.trace ++ [.printk .adc_poll, .poll_wait wait, .readl ADCCON] }) ∧
    POLLIN ||| POLLRDNORM = 0x41 ∧
    (adc_poll wait (adc_poll wait s).2).1 = (adc_poll wait s).1 := by
  have key : ∀ t : State, adc_poll wait t =
      (if (t.regs ADCCON).testBit 15 then POLLIN ||| POLLRDNORM else 0,
        { t with trace :=
            t.trace ++ [.printk .adc_poll, .poll_wait wait, .readl ADCCON] }) := by
    intro t
    unfold adc_poll
    simp only [adc_dev_is_finished_eq]
    cases h : (t.regs ADCCON).testBit 15 <;> simp [State.log, h]
  refine ⟨key s, by decide, ?_⟩
  rw [key (adc_poll wait s).2, key s]

/-! ## Interrupt handler -/

/-- C6 (as stated, refuted): started from the empty trace, `adc_isr` issues the
wake-up of the wait queue before the write of 0 to ADCCLRINT, so the
acknowledge does not precede the wake-up. -/
theorem adc_isr_ack_not_before_wake :
    (adc_isr st_busy).2.trace =
      [.printk .adc_isr, .wake_up_interruptible, .writel 0 ADCCLRINT] ∧
    ¬ ((adc_isr st_busy).2.trace.indexOf (.writel 0 ADCCLRINT) <
        (adc_isr st_busy).2.trace.indexOf .wake_up_interruptible) := by
  decide

/-- C6 (amended): every invocation of `adc_isr` logs its name, then wakes all
waiters on the device's wait queue exactly once, then writes 0 to ADCCLRINT
exactly once; it performs no other register access, leaves every other
register and the caller's memory unchanged, and returns `IRQ_HANDLED`. -/
theorem adc_isr_wake_then_ack (s : State) :
    adc_isr s =
      (IRQ_HANDLED,
        { s with
          regs := setAt s.regs ADCCLRINT 0
          trace := s.trace ++
            [.printk .adc_isr, .wake_up_interruptible, .writel 0 ADCCLRINT] }) ∧
    (∀ off, off ≠ ADCCLRINT → (adc_isr s).2.regs off = s.regs off) := by
  have h : adc_isr s =
      (IRQ_HANDLED,
        { s with
          regs := setAt s.regs ADCCLRINT 0
          trace := s.trace ++
            [.printk .adc_isr, .wake_up_interruptible, .writel 0 ADCCLRINT] }) := by
    simp [adc_isr, writel, State.log]
  refine ⟨h, ?_⟩
  intro off hoff
  rw [h]
  simp [setAt, hoff]

/-! ## Control path -/

/-- C8: `adc_unlocked_ioctl` returns 0 when the request is
`IOCTL_SET_RESOLUTION` and `-EINVAL` (= -22) for every other request; in both
cases the register window and the caller's memory are unchanged and the trace
grows by log lines only (no register is read or written). -/
theorem adc_unlocked_ioctl_result (IOCTL_SET_RESOLUTION requests arg : Nat) (s : State) :
    (adc_unlocked_ioctl IOCTL_SET_RESOLUTION requests arg s).1 =
      (if requests = IOCTL_SET_RESOLUTION then 0 else -22) ∧
    -EINVAL = -22 ∧
    (adc_unlocked_ioctl IOCTL_SET_RESOLUTION requests arg s).2.regs = s.regs ∧
    (adc_unlocked_ioctl IOCTL_SET_RESOLUTION requests arg s).2.umem = s.umem ∧
    (adc_unlocked_ioctl IOCTL_SET_RESOLUTION requests arg s).2.trace =
      s.trace ++ (if requests = IOCTL_SET_RESOLUTION then
        [.printk .adc_unlocked_ioctl, .printk_resolution (toInt32 arg)]
      else [.printk .adc_unlocked_ioctl]) := by
  unfold adc_unlocked_ioctl
  by_cases h : requests = IOCTL_SET_RESOLUTION <;> simp [h, State.log, EINVAL]

/-! ## Register configuration -/

theorem testBit_0x2 : ∀ i < 32, Nat.testBit 0x2 i = decide (i = 1) := by decide

theorem testBit_not_0x4 : ∀ i < 32, Nat.testBit 0xFFFFFFFB i = decide (i ≠ 2) := by decide

theorem testBit_0x3FC0 : ∀ i < 32, Nat.testBit 0x3FC0 i = decide (6 ≤ i ∧ i ≤ 13) := by
  decide

theorem testBit_0x4000 : ∀ i < 32, Nat.testBit 0x4000 i = decide (i = 14) := by decide

theorem testBit_0x10000 : ∀ i < 32, Nat.testBit 0x10000 i = decide (i = 16) := by decide

theorem testBit_not_0xF : ∀ i < 32, Nat.testBit 0xFFFFFFF0 i = decide (4 ≤ i) := by decide

theorem testBit_high (k i : Nat) (hk : k < 2 ^ 32) (hi : 32 ≤ i) : k.testBit i = false :=
  Nat.testBit_lt_two_pow (lt_of_lt_of_le hk (Nat.pow_le_pow_right (by norm_num) hi))

/-- Bits of the value `adc_dev_init` computes for ADCCON, in program order. -/
theorem adccon_value_bits (c i : Nat) (hc : c < 2 ^ 32) :
    ((((c ||| 0x2) &&& 0xFFFFFFFB) ||| 0x3FC0) ||| 0x4000 ||| 0x10000).testBit i =
      if i = 1 ∨ (6 ≤ i ∧ i ≤ 14) ∨ i = 16 then true
      else if i = 2 then false else c.testBit i := by
  by_cases hi : i < 32
  · simp only [Nat.testBit_or, Nat.testBit_and, testBit_0x2 i hi, testBit_not_0x4 i hi,
      testBit_0x3FC0 i hi, testBit_0x4000 i hi, testBit_0x10000 i hi]
    cases c.testBit i <;> interval_cases i <;> decide
  · have hi : 32 ≤ i := by omega
    simp only [Nat.testBit_or, Nat.testBit_and, testBit_high c i hc hi,
      testBit_high 0x2 i (by norm_num) hi, testBit_high 0xFFFFFFFB i (by norm_num) hi,
      testBit_high 0x3FC0 i (by norm_num) hi, testBit_high 0x4000 i (by norm_num) hi,
      testBit_high 0x10000 i (by norm_num) hi]
    simp
    omega

/-- Bits of the closed form `(c | 0x2 | 0x3FC0 | 0x4000 | 0x10000) & ~0x4`. -/
theorem adccon_formula_bits (c i : Nat) (hc : c < 2 ^ 32) :
    ((c ||| 0x2 ||| 0x3FC0 ||| 0x4000 ||| 0x10000) &&& 0xFFFFFFFB).testBit i =
      if i = 1 ∨ (6 ≤ i ∧ i ≤ 14) ∨ i = 16 then true
      else if i = 2 then false else c.testBit i := by
  by_cases hi : i < 32
  · simp only [Nat.testBit_or, Nat.testBit_and, testBit_0x2 i hi, testBit_not_0x4 i hi,
      testBit_0x3FC0 i hi, testBit_0x4000 i hi, testBit_0x10000 i hi]
    cases c.testBit i <;> interval_cases i <;> decide
  · have hi : 32 ≤ i := by omega
    simp only [Nat.testBit_or, Nat.testBit_and, testBit_high c i hc hi,
      testBit_high 0x2 i (by norm_num) hi, testBit_high 0xFFFFFFFB i (by norm_num) hi,
      testBit_high 0x3FC0 i (by norm_num) hi, testBit_high 0x4000 i (by norm_num) hi,
      testBit_high 0x10000 i (by norm_num) hi]
    simp
    omega

theorem admux_value_bits (m i : Nat) (hm : m < 2 ^ 32) :
    (m &&& 0xFFFFFFF0).testBit i = (decide (4 ≤ i) && m.testBit i) := by
  by_cases hi : i < 32
  · simp only [Nat.testBit_and, testBit_not_0xF i hi]
    cases m.testBit i <;> simp
  · have hi : 32 ≤ i := by omega
    simp [Nat.testBit_and, testBit_high m i hm hi]

/-- What `adc_dev_init` does, with the two written values left as computed. -/
theorem adc_dev_init_eq (s : State) :
    adc_dev_init s =
      { s with
        regs := setAt (setAt s.regs ADCCON
            ((((((s.regs ADCCON % 2 ^ 32 ||| 0x2) &&& 0xFFFFFFFB) ||| 0x3FC0) ||| 0x4000)
              ||| 0x10000) % 2 ^ 32))
          ADCMUX ((s.regs ADCMUX % 2 ^ 32 &&& 0xFFFFFFF0) % 2 ^ 32)
        trace := s.trace ++
          [.readl ADCCON,
           .writel ((((((s.regs ADCCON % 2 ^ 32 ||| 0x2) &&& 0xFFFFFFFB) ||| 0x3FC0)
              ||| 0x4000) ||| 0x10000) % 2 ^ 32) ADCCON,
           .readl ADCMUX,
           .writel ((s.regs ADCMUX % 2 ^ 32 &&& 0xFFFFFFF0) % 2 ^ 32) ADCMUX,
           .readl ADCDAT] } := by
  have h1 : (0x1 <<< 1 : Nat) = 0x2 := by decide
  have h2 : not32 (0x1 <<< 2) = 0xFFFFFFFB := by decide
  have h3 : (0xff <<< 6 : Nat) = 0x3FC0 := by decide
  have h4 : (0x1 <<< 14 : Nat) = 0x4000 := by decide
  have h5 : (0x1 <<< 16 : Nat) = 0x10000 := by decide
  have h6 : not32 0xf = 0xFFFFFFF0 := by decide
  have h7 : setAt s.regs ADCCON
      ((((((s.regs ADCCON % 2 ^ 32 ||| 0x2) &&& 0xFFFFFFFB) ||| 0x3FC0) ||| 0x4000)
        ||| 0x10000) % 2 ^ 32) ADCMUX = s.regs ADCMUX := by
    simp [setAt, ADCMUX, ADCCON]
  simp only [adc_dev_init, readl, writel, State.log, h1, h2, h3, h4, h5, h6, h7]
  simp

/-- C9: for every prior 32-bit value `c` of ADCCON and `m` of ADCMUX,
`adc_dev_init` leaves ADCCON = `(c | 0x2 | 0x3FC0 | 0x4000 | 0x10000) & ~0x4`,
that is bit 1, bits 6..13, bit 14 and bit 16 set, bit 2 clear and every
other bit as in `c`; it leaves ADCMUX = `m & ~0xF` (bits 0..3 clear, the rest
as in `m`); no other register and no caller memory changes; and its register
accesses are, in order: read ADCCON, write ADCCON, read ADCMUX, write
ADCMUX, and one final read of ADCDAT. -/
theorem adc_dev_init_registers (s : State)
    (hc : s.regs ADCCON < 2 ^ 32) (hm : s.regs ADCMUX < 2 ^ 32) :
    (adc_dev_init s).regs ADCCON =
      (s.regs ADCCON ||| 0x2 ||| 0x3FC0 ||| 0x4000 ||| 0x10000) &&& not32 0x4 ∧
    (∀ i, ((adc_dev_init s).regs ADCCON).testBit i =
      if i = 1 ∨ (6 ≤ i ∧ i ≤ 14) ∨ i = 16 then true
      else if i = 2 then false else (s.regs ADCCON).testBit i) ∧
    (adc_dev_init s).regs ADCMUX = s.regs ADCMUX &&& not32 0xF ∧
    (∀ i, ((adc_dev_init s).regs ADCMUX).testBit i =
      (decide (4 ≤ i) && (s.regs ADCMUX).testBit i)) ∧
    (∀ off, off ≠ ADCCON → off ≠ ADCMUX → (adc_dev_init s).regs off = s.regs off) ∧
    (adc_dev_init s).umem = s.umem ∧
    (adc_dev_init s).trace = s.trace ++
      [.readl ADCCON, .writel ((adc_dev_init s).regs ADCCON) ADCCON,
       .readl ADCMUX, .writel ((adc_dev_init s).regs ADCMUX) ADCMUX,
       .readl ADCDAT] := by
  have hnot4 : not32 0x4 = 0xFFFFFFFB := by decide
  have hnotF : not32 0xF = 0xFFFFFFF0 := by decide
  have hcm : s.regs ADCCON % 2 ^ 32 = s.regs ADCCON := Nat.mod_eq_of_lt hc
  have hmm : s.regs ADCMUX % 2 ^ 32 = s.regs ADCMUX := Nat.mod_eq_of_lt hm
  have hv : (((((s.regs ADCCON ||| 0x2) &&& 0xFFFFFFFB) ||| 0x3FC0) ||| 0x4000)
      ||| 0x10000) % 2 ^ 32 =
      (s.regs ADCCON ||| 0x2 ||| 0x3FC0 ||| 0x4000 ||| 0x10000) &&& 0xFFFFFFFB := by
    have hlt : (s.regs ADCCON ||| 0x2 ||| 0x3FC0 ||| 0x4000 ||| 0x10000) &&& 0xFFFFFFFB
        < 2 ^ 32 := Nat.and_lt_two_pow _ (by norm_num)
    have heq : ((((s.regs ADCCON ||| 0x2) &&& 0xFFFFFFFB) ||| 0x3FC0) ||| 0x4000)
        ||| 0x10000 =
        (s.regs ADCCON ||| 0x2 ||| 0x3FC0 ||| 0x4000 ||| 0x10000) &&& 0xFFFFFFFB := by
      apply Nat.eq_of_testBit_eq
      intro i
      rw [adccon_value_bits _ i hc, adccon_formula_bits _ i hc]
    rw [heq, Nat.mod_eq_of_lt hlt]
  have hw : (s.regs ADCMUX &&& 0xFFFFFFF0) % 2 ^ 32 = s.regs ADCMUX &&& 0xFFFFFFF0 :=
    Nat.mod_eq_of_lt (Nat.and_lt_two_pow _ (by norm_num))
  have hcon : (adc_dev_init s).regs ADCCON =
      (s.regs ADCCON ||| 0x2 ||| 0x3FC0 ||| 0x4000 ||| 0x10000) &&& 0xFFFFFFFB := by
    rw [adc_dev_init_eq, hcm, hv]
    simp [setAt, ADCCON, ADCMUX]
  have hmux : (adc_dev_init s).regs ADCMUX = s.regs ADCMUX &&& 0xFFFFFFF0 := by
    rw [adc_dev_init_eq, hmm, hw]
    simp [setAt]
  refine ⟨by rw [hcon, hnot4], ?_, by rw [hmux, hnotF], ?_, ?_, ?_, ?_⟩
  · intro i
    rw [hcon, adccon_formula_bits _ i hc]
  · intro i
    rw [hmux, admux_value_bits _ i hm]
  · intro off h1 h2
    rw [adc_dev_init_eq]
    simp [setAt, h1, h2]
  · rw [adc_dev_init_eq]
  · rw [hcon, hmux, adc_dev_init_eq, hcm, hmm, hv, hw]

theorem adc_dev_init_registers_witness :
    (adc_dev_init st_ready).regs ADCCON = 0x1FFC2 ∧
    (adc_dev_init st_ready).regs ADCMUX = 0 ∧
    (adc_dev_init st_ready).trace =
      [.readl ADCCON, .writel 0x1FFC2 ADCCON, .readl ADCMUX, .writel 0 ADCMUX,
       .readl ADCDAT] := by
  have h := adc_dev_init_registers st_ready (by decide) (by decide)
  refine ⟨?_, ?_, ?_⟩
  · rw [h.1]; decide
  · rw [h.2.2.1]; decide
  · rw [h.2.2.2.2.2.2]; decide

/-! ## Copy to the caller -/

theorem load32_bytes32 (v : Nat) (hv : v < 2 ^ 32) :
    (v % 256) + 256 * (v / 256 % 256) + 65536 * (v / 65536 % 256)
      + 16777216 * (v / 16777216 % 256) = v := by
  omega

theorem store_user_regs_trace (src : List Nat) :
    ∀ (dst : Nat) (s : State),
      (store_user dst src s).2.regs = s.regs ∧ (store_user dst src s).2.trace = s.trace := by
  induction src with
  | nil => intro dst s; exact ⟨rfl, rfl⟩
  | cons b bs ih =>
    intro dst s
    unfold store_user
    split
    · exact ih _ _
    · exact ⟨rfl, rfl⟩

/-- The copy reports 0 uncopied bytes exactly when every destination byte is writable. -/
theorem store_user_eq_zero_iff (src : List Nat) :
    ∀ (dst : Nat) (s : State),
      (store_user dst src s).1 = 0 ↔ ∀ i < src.length, s.writable (dst + i) = true := by
  induction src with
  | nil => intro dst s; simp [store_user]
  | cons b bs ih =>
    intro dst s
    unfold store_user
    by_cases hw : s.writable dst = true
    · rw [if_pos hw, ih]
      constructor
      · intro h i hi
        cases i with
        | zero => simpa using hw
        | succ j =>
          have hj := h j (by simpa using hi)
          have e : dst + (j + 1) = dst + 1 + j := by omega
          rw [e]
          exact hj
      · intro h i hi
        have hi1 := h (i + 1) (by simpa using hi)
        have e : dst + 1 + i = dst + (i + 1) := by omega
        show s.writable (dst + 1 + i) = true
        rw [e]
        exact hi1
    · rw [if_neg hw]
      constructor
      · intro h
        simp at h
      · intro h
        exact absurd (by simpa using h 0 (by simp)) hw

/-- The four stores of a fully successful copy of a 32-bit object. -/
theorem store_user_bytes32_ok (dst v : Nat) (s : State)
    (h : ∀ i < 4, s.writable (dst + i) = true) :
    store_user dst (bytes32 v) s =
      (0, { s with
        umem := setAt (setAt (setAt (setAt s.umem dst (v % 256)) (dst + 1) (v / 256 % 256))
                  (dst + 2) (v / 65536 % 256)) (dst + 3) (v / 16777216 % 256) }) := by
  have h0 : s.writable dst = true := by simpa using h 0 (by norm_num)
  have h1 : s.writable (dst + 1) = true := h 1 (by norm_num)
  have h2 : s.writable (dst + 1 + 1) = true := h 2 (by norm_num)
  have h3 : s.writable (dst + 1 + 1 + 1) = true := h 3 (by norm_num)
  simp [bytes32, store_user, h0, h1, h2, h3, Nat.add_assoc]

theorem adc_dev_read_eq (s : State) :
    adc_dev_read s = (s.regs ADCDAT &&& 0xFFF, s.log (.readl ADCDAT)) := by
  have h : s.regs ADCDAT % 2 ^ 32 &&& 0xfff = s.regs ADCDAT &&& 0xFFF := by
    have e : (0xfff : Nat) = 2 ^ 12 - 1 := by norm_num
    rw [e, Nat.and_pow_two_sub_one_eq_mod, Nat.and_pow_two_sub_one_eq_mod]
    exact Nat.mod_mod_of_dvd _ (by norm_num)
  simp only [adc_dev_read, readl, h]

theorem sample_le (x : Nat) : x &&& 0xFFF ≤ 4095 := by
  have e : (0xFFF : Nat) = 2 ^ 12 - 1 := by norm_num
  rw [e, Nat.and_pow_two_sub_one_eq_mod]
  have := Nat.mod_lt x (show 0 < 2 ^ 12 by norm_num)
  omega

/-! ## The wait loop -/

theorem wait_loop_ready_now (env : List WaitStep) (s : State)
    (h : (s.regs ADCCON).testBit 15 = true) :
    wait_loop adc_dev_is_finished env s =
      some (0, ((s.log .prepare_to_wait).log (.readl ADCCON)).log .finish_wait) := by
  have hc := adc_dev_is_finished_ready (s.log .prepare_to_wait) h
  cases env with
  | nil => simp [wait_loop, hc]
  | cons e env =>
    cases e with
    | signal => simp [wait_loop, hc]
    | wake regs => simp [wait_loop, hc]

theorem wait_loop_busy_wake (regs : Nat → Nat) (env : List WaitStep) (s : State)
    (h : (s.regs ADCCON).testBit 15 = false) :
    wait_loop adc_dev_is_finished (.wake regs :: env) s =
      wait_loop adc_dev_is_finished env
        { ((s.log .prepare_to_wait).log (.readl ADCCON)).log .schedule with regs := regs } := by
  have hc := adc_dev_is_finished_busy (s.log .prepare_to_wait) h
  simp [wait_loop, hc]

theorem wait_loop_busy_signal (env : List WaitStep) (s : State)
    (h : (s.regs ADCCON).testBit 15 = false) :
    wait_loop adc_dev_is_finished (.signal :: env) s =
      some (-ERESTARTSYS,
        ((s.log .prepare_to_wait).log (.readl ADCCON)).log .finish_wait) := by
  have hc := adc_dev_is_finished_busy (s.log .prepare_to_wait) h
  simp [wait_loop, hc]

theorem wait_loop_busy_nil (s : State) (h : (s.regs ADCCON).testBit 15 = false) :
    wait_loop adc_dev_is_finished [] s = none := by
  have hc := adc_dev_is_finished_busy (s.log .prepare_to_wait) h
  simp [wait_loop, hc]

/-- A waiter that sleeps through the busy windows `pre` and is then woken
with the ready window `w` leaves the loop with 0. -/
theorem wait_loop_sleeps_ready (w : Nat → Nat) (rest : List WaitStep)
    (hw : (w ADCCON).testBit 15 = true) (pre : List (Nat → Nat)) :
    ∀ s : State, (s.regs ADCCON).testBit 15 = false →
      (∀ b ∈ pre, (b ADCCON).testBit 15 = false) →
      ∃ s', wait_loop adc_dev_is_finished (pre.map .wake ++ .wake w :: rest) s = some (0, s') ∧
        s'.regs = w ∧ s'.umem = s.umem ∧ s'.writable = s.writable ∧
        ∃ t, s'.trace = s.trace ++ t ∧ WaitOnly t := by
  induction pre with
  | nil =>
    intro s hs _
    have h1 := wait_loop_busy_wake w rest s hs
    have h2 := wait_loop_ready_now rest
      { ((s.log .prepare_to_wait).log (.readl ADCCON)).log .schedule with regs := w } hw
    refine ⟨_, h1.trans h2, rfl, rfl, rfl, [.prepare_to_wait, .readl ADCCON, .schedule,
      .prepare_to_wait, .readl ADCCON, .finish_wait], ?_, ?_⟩
    · simp [State.log]
    · intro e he
      simp only [List.mem_cons, List.mem_singleton, List.not_mem_nil, or_false] at he
      rcases he with h | h | h | h | h | h <;> simp [h]
  | cons b pre ih =>
    intro s hs hpre
    have hb : (b ADCCON).testBit 15 = false := hpre b (List.mem_cons_self _ _)
    obtain ⟨s', h1, h2, h3, h4, t, h5, h6⟩ :=
      ih { ((s.log .prepare_to_wait).log (.readl ADCCON)).log .schedule with regs := b } hb
        (fun x hx => hpre x (List.mem_cons_of_mem _ hx))
    refine ⟨s', ?_, h2, h3, h4, [.prepare_to_wait, .readl ADCCON, .schedule] ++ t, ?_, ?_⟩
    · rw [List.map_cons, List.cons_append, wait_loop_busy_wake b _ s hs, h1]
    · rw [h5]
      simp [State.log]
    · intro e he
      rw [List.mem_append] at he
      rcases he with he | he
      · simp only [List.mem_cons, List.mem_singleton, List.not_mem_nil, or_false] at he
        rcases he with h | h | h <;> simp [h]
      · exact h6 e he

/-- A waiter that sleeps through the busy windows `pre` and then finds a
signal pending leaves the loop with `-ERESTARTSYS`. -/
theorem wait_loop_sleeps_signal (rest : List WaitStep) (pre : List (Nat → Nat)) :
    ∀ s : State, (s.regs ADCCON).testBit 15 = false →
      (∀ b ∈ pre, (b ADCCON).testBit 15 = false) →
      ∃ s', wait_loop adc_dev_is_finished (pre.map .wake ++ .signal :: rest) s =
          some (-ERESTARTSYS, s') ∧
        s'.regs = pre.getLastD s.regs ∧ s'.umem = s.umem ∧ s'.writable = s.writable ∧
        ∃ t, s'.trace = s.trace ++ t ∧ WaitOnly t := by
  induction pre with
  | nil =>
    intro s hs _
    refine ⟨_, wait_loop_busy_signal rest s hs, rfl, rfl, rfl,
      [.prepare_to_wait, .readl ADCCON, .finish_wait], ?_, ?_⟩
    · simp [State.log]
    · intro e he
      simp only [List.mem_cons, List.mem_singleton, List.not_mem_nil, or_false] at he
      rcases he with h | h | h <;> simp [h]
  | cons b pre ih =>
    intro s hs hpre
    have hb : (b ADCCON).testBit 15 = false := hpre b (List.mem_cons_self _ _)
    obtain ⟨s', h1, h2, h3, h4, t, h5, h6⟩ :=
      ih { ((s.log .prepare_to_wait).log (.readl ADCCON)).log .schedule with regs := b } hb
        (fun x hx => hpre x (List.mem_cons_of_mem _ hx))
    refine ⟨s', ?_, ?_, h3, h4, [.prepare_to_wait, .readl ADCCON, .schedule] ++ t, ?_, ?_⟩
    · rw [List.map_cons, List.cons_append, wait_loop_busy_wake b _ s hs, h1]
    · rw [h2]
      cases pre <;> rfl
    · rw [h5]
      simp [State.log]
    · intro e he
      rw [List.mem_append] at he
      rcases he with he | he
      · simp only [List.mem_cons, List.mem_singleton, List.not_mem_nil, or_false] at he
        rcases he with h | h | h <;> simp [h]
      · exact h6 e he

/-- A waiter that only ever wakes to busy windows, and is then left asleep,
never leaves the loop. -/
theorem wait_loop_never_ready (pre : List (Nat → Nat)) :
    ∀ s : State, (s.regs ADCCON).testBit 15 = false →
      (∀ b ∈ pre, (b ADCCON).testBit 15 = false) →
      wait_loop adc_dev_is_finished (pre.map .wake) s = none := by
  induction pre with
  | nil =>
    intro s hs _
    exact wait_loop_busy_nil s hs
  | cons b pre ih =>
    intro s hs hpre
    rw [List.map_cons, wait_loop_busy_wake b _ s hs]
    exact ih _ (hpre b (List.mem_cons_self _ _))
      (fun x hx => hpre x (List.mem_cons_of_mem _ hx))

/-! ## Delivery of the sample -/

/-- Delivery into a writable buffer: the sample is returned and stored. -/
theorem adc_read_deliver_ok (buf : Nat) (loff : Int) (s : State)
    (h : ∀ i < 4, s.writable (buf + i) = true) :
    (adc_read_deliver buf loff s).ret = ((s.regs ADCDAT &&& 0xFFF : Nat) : Int) ∧
    (adc_read_deliver buf loff s).loff = loff ∧
    (adc_read_deliver buf loff s).st.regs = s.regs ∧
    load32 (adc_read_deliver buf loff s).st.umem buf = s.regs ADCDAT &&& 0xFFF ∧
    (adc_read_deliver buf loff s).st.trace = s.trace ++
      [.readl ADCDAT,
       .copy_to_user buf (bytes32 (s.regs ADCDAT &&& 0xFFF)) sizeof_ssize_t 0] := by
  have hv : s.regs ADCDAT &&& 0xFFF < 2 ^ 32 := by
    have := sample_le (s.regs ADCDAT)
    omega
  have hst := store_user_bytes32_ok buf (s.regs ADCDAT &&& 0xFFF) (s.log (.readl ADCDAT)) h
  have hd : adc_read_deliver buf loff s =
      ⟨((s.regs ADCDAT &&& 0xFFF : Nat) : Int), loff,
        (store_user buf (bytes32 (s.regs ADCDAT &&& 0xFFF)) (s.log (.readl ADCDAT))).2.log
          (.copy_to_user buf (bytes32 (s.regs ADCDAT &&& 0xFFF)) 4 0)⟩ := by
    unfold adc_read_deliver
    simp only [adc_dev_read_eq, copy_to_user]
    rw [hst]
    simp [bytes32]
  rw [hd, hst]
  refine ⟨rfl, rfl, rfl, ?_, ?_⟩
  · simp only [State.log, load32, setAt]
    have e1 : ¬ buf = buf + 1 := by omega
    have e2 : ¬ buf = buf + 2 := by omega
    have e3 : ¬ buf = buf + 3 := by omega
    have e4 : ¬ buf + 1 = buf + 2 := by omega
    have e5 : ¬ buf + 1 = buf + 3 := by omega
    have e6 : ¬ buf + 2 = buf + 3 := by omega
    simp only [e1, e2, e3, e4, e5, e6, if_true, if_false]
    exact load32_bytes32 _ hv
  · simp [State.log, sizeof_ssize_t]

/-- Delivery into a buffer with an unwritable byte: `-EFAULT`. -/
theorem adc_read_deliver_fault (buf : Nat) (loff : Int) (s : State)
    (h : ∃ i < 4, s.writable (buf + i) = false) :
    (adc_read_deliver buf loff s).ret = -EFAULT ∧
    (adc_read_deliver buf loff s).loff = loff ∧
    (adc_read_deliver buf loff s).st.regs = s.regs ∧
    ∃ k, k ≠ 0 ∧ (adc_read_deliver buf loff s).st.trace = s.trace ++
      [.readl ADCDAT,
       .copy_to_user buf (bytes32 (s.regs ADCDAT &&& 0xFFF)) sizeof_ssize_t k] := by
  have hk : (store_user buf (bytes32 (s.regs ADCDAT &&& 0xFFF)) (s.log (.readl ADCDAT))).1
      ≠ 0 := by
    intro h0
    rw [store_user_eq_zero_iff] at h0
    obtain ⟨i, hi, hf⟩ := h
    have := h0 i (by simpa [bytes32] using hi)
    simp [State.log, hf] at this
  have hd : adc_read_deliver buf loff s =
      ⟨-EFAULT, loff,
        (store_user buf (bytes32 (s.regs ADCDAT &&& 0xFFF)) (s.log (.readl ADCDAT))).2.log
          (.copy_to_user buf (bytes32 (s.regs ADCDAT &&& 0xFFF)) 4
            (store_user buf (bytes32 (s.regs ADCDAT &&& 0xFFF))
              (s.log (.readl ADCDAT))).1)⟩ := by
    unfold adc_read_deliver
    simp only [adc_dev_read_eq, copy_to_user]
    rw [if_pos (by exact_mod_cast hk)]
    simp [bytes32]
  rw [hd]
  refine ⟨rfl, rfl, ?_, _, hk, ?_⟩
  · exact (store_user_regs_trace _ _ _).1
  · simp only [State.log, (store_user_regs_trace _ _ _).2, sizeof_ssize_t]
    simp

/-! ## The read path -/

/-- A read that finds the status bit set at its first check delivers at once,
in either mode. -/
theorem adc_read_ready_now (f_flags buf len : Nat) (loff : Int) (env : List WaitStep)
    (s : State) (h : (s.regs ADCCON).testBit 15 = true) :
    adc_read f_flags buf len loff env s =
      some (adc_read_deliver buf loff
        ((s.log (.printk .adc_read)).log (.readl ADCCON))) := by
  have hc := adc_dev_is_finished_ready (s.log (.printk .adc_read)) h
  unfold adc_read
  by_cases hf : f_flags &&& O_NONBLOCK = 0
  · simp [hf, wait_event_interruptible, hc]
  · simp [hf, hc]

/-- A blocking read that sleeps through busy windows and wakes to a ready one. -/
theorem adc_read_block_sleeps_ready (f_flags buf len : Nat) (loff : Int) (s : State)
    (pre : List (Nat → Nat)) (w : Nat → Nat) (rest : List WaitStep)
    (hb : f_flags &&& O_NONBLOCK = 0)
    (hs : (s.regs ADCCON).testBit 15 = false)
    (hpre : ∀ b ∈ pre, (b ADCCON).testBit 15 = false)
    (hw : (w ADCCON).testBit 15 = true) :
    ∃ s', adc_read f_flags buf len loff (pre.map .wake ++ .wake w :: rest) s =
        some (adc_read_deliver buf loff s') ∧
      s'.regs = w ∧ s'.umem = s.umem ∧ s'.writable = s.writable ∧
      ∃ t, s'.trace = s.trace ++ .printk .adc_read :: .readl ADCCON :: t ∧ WaitOnly t := by
  have hc := adc_dev_is_finished_busy (s.log (.printk .adc_read)) hs
  obtain ⟨s', h1, h2, h3, h4, t, h5, h6⟩ :=
    wait_loop_sleeps_ready w rest hw pre
      ((s.log (.printk .adc_read)).log (.readl ADCCON)) hs hpre
  refine ⟨s', ?_, h2, h3, h4, t, ?_, h6⟩
  · unfold adc_read
    simp only [hb, if_true, wait_event_interruptible, hc]
    simp [h1]
  · rw [h5]
    simp [State.log]

/-- A blocking read that sleeps through busy windows and is then cancelled. -/
theorem adc_read_block_sleeps_signal (f_flags buf len : Nat) (loff : Int) (s : State)
    (pre : List (Nat → Nat)) (rest : List WaitStep)
    (hb : f_flags &&& O_NONBLOCK = 0)
    (hs : (s.regs ADCCON).testBit 15 = false)
    (hpre : ∀ b ∈ pre, (b ADCCON).testBit 15 = false) :
    ∃ s', adc_read f_flags buf len loff (pre.map .wake ++ .signal :: rest) s =
        some ⟨-ERESTARTSYS, loff, s'⟩ ∧
      s'.regs = pre.getLastD s.regs ∧ s'.umem = s.umem ∧ s'.writable = s.writable ∧
      ∃ t, s'.trace = s.trace ++ .printk .adc_read :: .readl ADCCON :: t ∧ WaitOnly t := by
  have hc := adc_dev_is_finished_busy (s.log (.printk .adc_read)) hs
  obtain ⟨s', h1, h2, h3, h4, t, h5, h6⟩ :=
    wait_loop_sleeps_signal rest pre
      ((s.log (.printk .adc_read)).log (.readl ADCCON)) hs hpre
  refine ⟨s', ?_, h2, h3, h4, t, ?_, h6⟩
  · unfold adc_read
    simp only [hb, if_true, wait_event_interruptible, hc]
    simp [h1, ERESTARTSYS]
  · rw [h5]
    simp [State.log]

/-- C2: let the window `w` have bit 15 of ADCCON set and let the four bytes
at `buf` be writable.  The sample `w ADCDAT & 0xFFF` is at most 4095.  Any
`adc_read` issued on `w`, blocking or not, returns exactly that sample,
leaves it stored at `buf`, and performs one status read, one read of ADCDAT
and one complete copy, whatever `f_flags` is.  A blocking read that first
slept through the busy windows `s.regs, pre` and was woken when the window
read `w` returns that same sample and stores it at `buf`, as a non-blocking
read on `w` does. -/
theorem adc_read_ready_sample (f_flags buf len : Nat) (loff : Int) (s : State)
    (pre : List (Nat → Nat)) (w : Nat → Nat) (rest : List WaitStep)
    (hblk : f_flags &&& O_NONBLOCK = 0)
    (hbusy : ∀ b ∈ s.regs :: pre, (b ADCCON).testBit 15 = false)
    (hw : (w ADCCON).testBit 15 = true)
    (hbuf : ∀ i < 4, s.writable (buf + i) = true) :
    w ADCDAT &&& 0xFFF ≤ 4095 ∧
    (∀ (f : Nat) (env : List WaitStep), ∃ r,
      adc_read f buf len loff env { s with regs := w } = some r ∧
      r.ret = ((w ADCDAT &&& 0xFFF : Nat) : Int) ∧
      load32 r.st.umem buf = w ADCDAT &&& 0xFFF ∧
      r.st.regs = w ∧
      r.st.trace = s.trace ++
        [.printk .adc_read, .readl ADCCON, .readl ADCDAT,
         .copy_to_user buf (bytes32 (w ADCDAT &&& 0xFFF)) sizeof_ssize_t 0]) ∧
    (∃ r,
      adc_read f_flags buf len loff (pre.map .wake ++ .wake w :: rest) s = some r ∧
      r.ret = ((w ADCDAT &&& 0xFFF : Nat) : Int) ∧
      load32 r.st.umem buf = w ADCDAT &&& 0xFFF ∧
      r.st.regs = w ∧
      ∃ t, WaitOnly t ∧ r.st.trace = s.trace ++ .printk .adc_read :: .readl ADCCON :: t ++
        [.readl ADCDAT,
         .copy_to_user buf (bytes32 (w ADCDAT &&& 0xFFF)) sizeof_ssize_t 0]) := by
  refine ⟨sample_le _, ?_, ?_⟩
  · intro f env
    have h1 := adc_read_ready_now f buf len loff env { s with regs := w } hw
    obtain ⟨d1, _, d3, d4, d5⟩ := adc_read_deliver_ok buf loff
      (({ s with regs := w }.log (.printk .adc_read)).log (.readl ADCCON)) hbuf
    refine ⟨_, h1, d1, d4, d3, ?_⟩
    rw [d5]
    simp only [State.log, List.append_assoc, List.cons_append, List.nil_append]
  · obtain ⟨s', h1, h2, _, h4, t, h5, h6⟩ :=
      adc_read_block_sleeps_ready f_flags buf len loff s pre w rest hblk
        (hbusy _ (List.mem_cons_self _ _))
        (fun b hb => hbusy b (List.mem_cons_of_mem _ hb)) hw
    obtain ⟨d1, _, d3, d4, d5⟩ := adc_read_deliver_ok buf loff s'
      (by rw [h4]; exact hbuf)
    rw [h2] at d1 d4 d5
    refine ⟨_, h1, d1, d4, d3.trans h2, t, h6, ?_⟩
    rw [d5, h5]

theorem adc_read_ready_sample_witness :
    ∃ r, adc_read 0 0 4 0 [.wake st_busy.regs, .wake regs_ready] st_busy = some r ∧
      r.ret = 0xBCD ∧ load32 r.st.umem 0 = 0xBCD :=
  have h := adc_read_ready_sample 0 0 4 0 st_busy [st_busy.regs] regs_ready []
    (by decide)
    (by
      intro b hb
      simp only [List.mem_cons, List.mem_singleton, List.not_mem_nil, or_false, or_self] at hb
      subst hb
      decide)
    (by decide) (by intro i _; rfl)
  match h.2.2 with
  | ⟨r, h1, h2, h3, _⟩ => ⟨r, h1, h2, h3⟩

/-! ## Cancelled blocking read -/

/-- C3: a blocking `adc_read` that finds bit 15 of ADCCON clear at every
check (at entry and after each wake-up through the windows `pre`) and then
finds a signal pending returns the error of the wait, `-ERESTARTSYS`
(= -512, negative).  It has performed only status reads and wait-queue
operations: no register write, no read of ADCDAT, no copy.  The register
window is as the environment last left it, and the caller's memory and
`*loff` are unchanged. -/
theorem adc_read_block_cancelled (f_flags buf len : Nat) (loff : Int) (s : State)
    (pre : List (Nat → Nat)) (rest : List WaitStep)
    (hblk : f_flags &&& O_NONBLOCK = 0)
    (hbusy : ∀ b ∈ s.regs :: pre, (b ADCCON).testBit 15 = false) :
    ∃ r, adc_read f_flags buf len loff (pre.map .wake ++ .signal :: rest) s = some r ∧
      r.ret = -ERESTARTSYS ∧ r.ret = -512 ∧ r.ret < 0 ∧
      r.loff = loff ∧
      r.st.regs = pre.getLastD s.regs ∧
      r.st.umem = s.umem ∧
      ∃ t, WaitOnly t ∧
        r.st.trace = s.trace ++ .printk .adc_read :: .readl ADCCON :: t := by
  obtain ⟨s', h1, h2, h3, _, t, h5, h6⟩ :=
    adc_read_block_sleeps_signal f_flags buf len loff s pre rest hblk
      (hbusy _ (List.mem_cons_self _ _))
      (fun b hb => hbusy b (List.mem_cons_of_mem _ hb))
  have hneg : -ERESTARTSYS < 0 := by decide
  exact ⟨_, h1, rfl, rfl, hneg, rfl, h2, h3, t, h6, h5⟩

theorem adc_read_block_cancelled_witness :
    ∃ r, adc_read 0 0 4 0 [.wake st_busy.regs, .signal] st_busy = some r ∧
      r.ret = -512 ∧ r.st.umem = st_busy.umem :=
  have h := adc_read_block_cancelled 0 0 4 0 st_busy [st_busy.regs] []
    (by decide)
    (by
      intro b hb
      simp only [List.mem_cons, List.mem_singleton, List.not_mem_nil, or_false, or_self] at hb
      subst hb
      decide)
  match h with
  | ⟨r, h1, _, h2, _, _, _, h3, _⟩ => ⟨r, h1, h2, h3⟩

/-! ## Faulty caller buffer -/

/-- C7: let the window `w` have bit 15 of ADCCON set and let one of the four
bytes at `buf` be unwritable, so that `copy_to_user` reports a non-zero count
`k` of uncopied bytes.  Any `adc_read` issued on `w`, blocking or not, and
any blocking read that slept through the busy windows `s.regs, pre` and woke
to `w`, returns `-EFAULT` (= -14): a negative code, hence neither a sample
nor the count `k`. -/
theorem adc_read_copy_fault (f_flags buf len : Nat) (loff : Int) (s : State)
    (pre : List (Nat → Nat)) (w : Nat → Nat) (rest : List WaitStep)
    (hblk : f_flags &&& O_NONBLOCK = 0)
    (hbusy : ∀ b ∈ s.regs :: pre, (b ADCCON).testBit 15 = false)
    (hw : (w ADCCON).testBit 15 = true)
    (hbuf : ∃ i < 4, s.writable (buf + i) = false) :
    -EFAULT = -14 ∧
    (∀ (f : Nat) (env : List WaitStep), ∃ r,
      adc_read f buf len loff env { s with regs := w } = some r ∧
      r.ret = -EFAULT ∧
      ∃ k : Nat, k ≠ 0 ∧ r.ret ≠ (k : Int) ∧ r.st.trace = s.trace ++
        [.printk .adc_read, .readl ADCCON, .readl ADCDAT,
         .copy_to_user buf (bytes32 (w ADCDAT &&& 0xFFF)) sizeof_ssize_t k]) ∧
    (∃ r,
      adc_read f_flags buf len loff (pre.map .wake ++ .wake w :: rest) s = some r ∧
      r.ret = -EFAULT ∧
      ∃ (k : Nat) (t : List Event), k ≠ 0 ∧ r.ret ≠ (k : Int) ∧ WaitOnly t ∧
        r.st.trace = s.trace ++ .printk .adc_read :: .readl ADCCON :: t ++
          [.readl ADCDAT,
           .copy_to_user buf (bytes32 (w ADCDAT &&& 0xFFF)) sizeof_ssize_t k]) := by
  have hne : ∀ (x : Int) (k : Nat), x = -EFAULT → x ≠ (k : Int) := by
    intro x k hx
    rw [hx]
    simp only [EFAULT]
    omega
  refine ⟨rfl, ?_, ?_⟩
  · intro f env
    have h1 := adc_read_ready_now f buf len loff env { s with regs := w } hw
    obtain ⟨d1, _, _, k, hk, d5⟩ := adc_read_deliver_fault buf loff
      (({ s with regs := w }.log (.printk .adc_read)).log (.readl ADCCON)) hbuf
    refine ⟨_, h1, d1, k, hk, hne _ k d1, ?_⟩
    rw [d5]
    simp only [State.log, List.append_assoc, List.cons_append, List.nil_append]
  · obtain ⟨s', h1, h2, _, h4, t, h5, h6⟩ :=
      adc_read_block_sleeps_ready f_flags buf len loff s pre w rest hblk
        (hbusy _ (List.mem_cons_self _ _))
        (fun b hb => hbusy b (List.mem_cons_of_mem _ hb)) hw
    obtain ⟨d1, _, _, k, hk, d5⟩ := adc_read_deliver_fault buf loff s'
      (by rw [h4]; exact hbuf)
    rw [h2] at d5
    refine ⟨_, h1, d1, k, t, hk, hne _ k d1, h6, ?_⟩
    rw [d5, h5]

theorem adc_read_copy_fault_witness :
    (∃ r, adc_read O_NONBLOCK 0 4 0 [] st_fault = some r ∧ r.ret = -14) ∧
    (∃ r, adc_read 0 0 4 0 [.wake st_busy.regs, .wake regs_ready]
        { st_fault with regs := st_busy.regs } = some r ∧ r.ret = -14) :=
  have h := adc_read_copy_fault 0 0 4 0 { st_fault with regs := st_busy.regs }
    [st_busy.regs] regs_ready []
    (by decide)
    (by
      intro b hb
      simp only [List.mem_cons, List.mem_singleton, List.not_mem_nil, or_false, or_self] at hb
      subst hb
      decide)
    (by decide) ⟨2, by decide, rfl⟩
  ⟨match h.2.1 O_NONBLOCK [] with
    | ⟨r, h1, h2, _⟩ => ⟨r, h1, h2⟩,
   match h.2.2 with
    | ⟨r, h1, h2, _⟩ => ⟨r, h1, h2⟩⟩

/-! ## Requested length and file offset -/

theorem adc_read_deliver_indep (buf : Nat) (loff₁ loff₂ : Int) (s : State) :
    (adc_read_deliver buf loff₁ s).ret = (adc_read_deliver buf loff₂ s).ret ∧
    (adc_read_deliver buf loff₁ s).st = (adc_read_deliver buf loff₂ s).st := by
  unfold adc_read_deliver
  dsimp only
  constructor <;> split <;> rfl

theorem adc_read_deliver_loff (buf : Nat) (loff : Int) (s : State) :
    (adc_read_deliver buf loff s).loff = loff := by
  unfold adc_read_deliver
  dsimp only
  split <;> rfl

/-- A delivery that returns a non-negative value ended with a complete copy
of `sizeof(ssize_t)` bytes of that value to `buf`. -/
theorem adc_read_deliver_success (buf : Nat) (loff : Int) (s : State)
    (h : 0 ≤ (adc_read_deliver buf loff s).ret) :
    ∃ v : Nat, (adc_read_deliver buf loff s).ret = v ∧
      (adc_read_deliver buf loff s).st.trace.getLast? =
        some (.copy_to_user buf (bytes32 v) sizeof_ssize_t 0) := by
  unfold adc_read_deliver at h ⊢
  dsimp only at h ⊢
  split at h
  · simp [EFAULT] at h
  · rename_i hk
    rw [if_neg hk]
    have hk0 : (copy_to_user buf (bytes32 (adc_dev_read s).1) (adc_dev_read s).2).1 = 0 := by
      simpa using hk
    refine ⟨(adc_dev_read s).1, rfl, ?_⟩
    simp only [copy_to_user] at hk0 ⊢
    rw [hk0]
    simp [State.log, bytes32, sizeof_ssize_t]

/-- C10: `adc_read` ignores the requested length and the file offset.  Two
calls that differ only in `len` and `*loff` return the same value and end in
the same state (same register accesses, same copy, same caller memory, or
both never return); a call that returns leaves `*loff` as it was; and a call
that returns a sample (a non-negative value) has, as its last action, copied
all `sizeof(ssize_t)` = 4 bytes of it to `buf`, whatever `len` is. -/
theorem adc_read_ignores_len_loff (f_flags buf len₁ len₂ : Nat) (loff₁ loff₂ : Int)
    (env : List WaitStep) (s : State) :
    (adc_read f_flags buf len₁ loff₁ env s).map (fun r => (r.ret, r.st)) =
      (adc_read f_flags buf len₂ loff₂ env s).map (fun r => (r.ret, r.st)) ∧
    (∀ r, adc_read f_flags buf len₁ loff₁ env s = some r →
      r.loff = loff₁ ∧
      (0 ≤ r.ret → ∃ v : Nat, r.ret = v ∧
        r.st.trace.getLast? = some (.copy_to_user buf (bytes32 v) sizeof_ssize_t 0))) ∧
    sizeof_ssize_t = 4 := by
  refine ⟨?_, ?_, rfl⟩
  · unfold adc_read
    by_cases hf : f_flags &&& O_NONBLOCK = 0
    · simp only [hf, if_true]
      cases hwait : wait_event_interruptible adc_dev_is_finished env
          (s.log (.printk .adc_read)) with
      | none => rfl
      | some p =>
        obtain ⟨ret, s'⟩ := p
        by_cases hret : ret < 0
        · simp [hret]
        · simp [hret, (adc_read_deliver_indep buf loff₁ loff₂ s').1,
            (adc_read_deliver_indep buf loff₁ loff₂ s').2]
    · simp only [hf, if_false]
      by_cases hfin : (adc_dev_is_finished (s.log (.printk .adc_read))).1 = 0
      · simp [hfin]
      · simp [hfin, (adc_read_deliver_indep buf loff₁ loff₂ _).1,
          (adc_read_deliver_indep buf loff₁ loff₂ _).2]
  · intro r hr
    unfold adc_read at hr
    by_cases hf : f_flags &&& O_NONBLOCK = 0
    · simp only [hf, if_true] at hr
      cases hwait : wait_event_interruptible adc_dev_is_finished env
          (s.log (.printk .adc_read)) with
      | none => rw [hwait] at hr; simp at hr
      | some p =>
        obtain ⟨ret, s'⟩ := p
        rw [hwait] at hr
        by_cases hret : ret < 0
        · simp only [hret, if_true, Option.some.injEq] at hr
          subst hr
          exact ⟨rfl, fun h0 => absurd h0 (not_le.mpr hret)⟩
        · simp only [hret, if_false, Option.some.injEq] at hr
          subst hr
          exact ⟨adc_read_deliver_loff _ _ _, adc_read_deliver_success _ _ _⟩
    · simp only [hf, if_false] at hr
      by_cases hfin : (adc_dev_is_finished (s.log (.printk .adc_read))).1 = 0
      · simp only [hfin, if_true, Option.some.injEq] at hr
        subst hr
        have hneg : ¬ (0 : Int) ≤ -EAGAIN := by decide
        exact ⟨rfl, fun h0 => absurd h0 hneg⟩
      · simp only [hfin, if_false, Option.some.injEq] at hr
        subst hr
        exact ⟨adc_read_deliver_loff _ _ _, adc_read_deliver_success _ _ _⟩

theorem adc_read_ignores_len_loff_witness :
    (adc_read O_NONBLOCK 0 0 7 [] st_ready).map (fun r => (r.ret, r.st)) =
      (adc_read O_NONBLOCK 0 4 0 [] st_ready).map (fun r => (r.ret, r.st)) ∧
    ∃ r, adc_read O_NONBLOCK 0 0 7 [] st_ready = some r ∧ r.loff = 7 ∧
      ∃ v : Nat, r.ret = v ∧
        r.st.trace.getLast? = some (.copy_to_user 0 (bytes32 v) sizeof_ssize_t 0) :=
  have h := adc_read_ignores_len_loff O_NONBLOCK 0 0 4 7 0 [] st_ready
  have hr := adc_read_ready_now O_NONBLOCK 0 0 7 [] st_ready (by decide)
  have hd := adc_read_deliver_ok 0 7
    ((st_ready.log (.printk .adc_read)).log (.readl ADCCON)) (by intro i _; rfl)
  ⟨h.1, _, hr, (h.2.1 _ hr).1, (h.2.1 _ hr).2 (by rw [hd.1]; exact Int.natCast_nonneg _)⟩

end Adc
